import Mathlib

set_option linter.unusedVariables false

/-!
Verification of `synthetic_data/synthetic_data_generator_dimensions.py`.

The script defines one function, `generate_dataset(filename, n_rows, n_dims)`,
which opens `filename` for writing (mode `'w'`, `newline=''`, truncating any
prior content), writes a header row `dimension_1,...,dimension_n` with
`csv.writer`, then writes `n_rows` data rows, each obtained from
`np.random.randint(0, 101, size=n_dims).tolist()`; a driver at module level
invokes it over the cross product `{10, 20} x {100, 1000, 10000, 100000}`.

Embedding choices:
* Python `int` arguments are `Int`; `range(n)` over an `Int` is empty for
  `n <= 0`.
* The numpy sampler `np.random.randint(0, 101, size=k)` is modelled by a
  stream `rng : Nat -> Fin 101` of independent draws (the sampler's contract
  is that each draw is a uniform integer in `[0, 101)`); call sites consume
  one fresh stream index per cell.  A negative `size` raises `ValueError`
  ("negative dimensions are not allowed"), which propagates.
* A file is its list of written rows (each row a list of string fields,
  already stringified as `csv.writer` does with `str`); a separate rendering
  layer produces the character content: fields joined with `','` and each
  row terminated by `csv.writer`'s line terminator `"\r\n"` (the `excel`
  dialect default; `newline=''` disables any platform translation).
* The `with open(...)` block is additionally modelled as an event trace
  (open, row writes, close, exception propagation), with `close` emitted on
  every exit path as the `with` statement guarantees.
-/

namespace SyntheticData

/-- Python `range(n)` for an `Int` bound: the indices `0, ..., n-1`,
empty when `n ≤ 0`. -/
def pythonRange (n : Int) : List Nat := List.range n.toNat

/-- One decimal digit character (`0 ≤ n ≤ 9`; callers only pass `n % 10`
or `n < 10`). -/
def decDigit : Nat → Char
  | 0 => '0' | 1 => '1' | 2 => '2' | 3 => '3' | 4 => '4'
  | 5 => '5' | 6 => '6' | 7 => '7' | 8 => '8' | _ => '9'

/-- Fuelled decimal printer: most significant digit first. -/
def decCharsAux : Nat → Nat → List Char
  | 0, _ => []
  | fuel + 1, n =>
    if n < 10 then [decDigit n]
    else decCharsAux fuel (n / 10) ++ [decDigit (n % 10)]

/-- Decimal rendering of a natural number, as Python `str` renders a
nonnegative `int`. -/
def natToStr (n : Nat) : String := (decCharsAux (n + 1) n).asString

/-- Python `str` on an `int` (used by the driver's f-string). -/
def intToStr (i : Int) : String :=
  if i < 0 then "-" ++ natToStr i.natAbs else natToStr i.toNat

/-- A stream of draws from numpy's uniform integer sampler on `[0, 101)`:
index `k` is the `k`-th independent draw of the process, always in
`[0, 100]`. -/
def RNG : Type := Nat → Fin 101

/-- `np.random.randint(0, 101, size).tolist()`: raises `ValueError` on a
negative `size`, otherwise takes `size` fresh draws from the stream starting
at `offset`. -/
def npRandint (rng : RNG) (offset : Nat) (size : Int) :
    Except String (List Nat) :=
  if size < 0 then .error "negative dimensions are not allowed"
  else .ok ((List.range size.toNat).map (fun j => (rng (offset + j)).val))

/-- The header row built by `generate_dataset`:
`headers = [f"dimension_{i+1}" for i in range(n_dims)]`. -/
def headersOf (nDims : Int) : List String :=
  (pythonRange nDims).map (fun i => "dimension_" ++ natToStr (i + 1))

/-- The numeric contents of data row `r` (`0`-based): `n_dims` fresh draws,
one stream index per cell. -/
def dataRow (rng : RNG) (nDims : Int) (r : Nat) : List Nat :=
  (List.range nDims.toNat).map (fun j => (rng (r * nDims.toNat + j)).val)

/-- The body of the `for _ in range(n_rows)` loop: returns the data rows
written (stringified, in order) and the exception that escaped the loop, if
any.  On a raised `ValueError` the rows already written stay written. -/
def rowsAndErr (rng : RNG) (nDims : Int) :
    List Nat → List (List String) × Option String
  | [] => ([], none)
  | r :: rest =>
    match npRandint rng (r * nDims.toNat) nDims with
    | .error e => ([], some e)
    | .ok vals =>
      let p := rowsAndErr rng nDims rest
      (vals.map natToStr :: p.1, p.2)

set_option linter.unusedVariables false in
/-- `generate_dataset(filename, n_rows, n_dims)`.  `prior` is the content the
destination file had before the call; `open(filename, 'w')` truncates it, so
the result never depends on it.  Returns the rows the file holds on disk
after the call (the `with` block closes the handle on every exit path) and
the exception that propagated, if any. -/
def generate_dataset (prior : List (List String)) (nRows nDims : Int)
    (rng : RNG) : List (List String) × Option String :=
  let p := rowsAndErr rng nDims (pythonRange nRows)
  (headersOf nDims :: p.1, p.2)

/-- The stringified data rows of a whole successful run. -/
def dataRowsOf (rng : RNG) (nRows nDims : Int) : List (List String) :=
  (pythonRange nRows).map (fun r => (dataRow rng nDims r).map natToStr)

/-- A constant stream: every draw is `0`. -/
def rngZero : RNG := fun _ => 0

/- ### The driver -/

/-- `sizes = [100, 1000, 10000, 100000]`. -/
def sizes : List Int := [100, 1000, 10000, 100000]

/-- `dimensions = [10, 20]`. -/
def dimensions : List Int := [10, 20]

/-- The driver's filename f-string: `f"dataset_{n_dims}D_{size}.csv"`. -/
def driverFilename (nDims size : Int) : String :=
  "dataset_" ++ intToStr nDims ++ "D_" ++ intToStr size ++ ".csv"

/-- The ordered sequence of Dataset Writer invocations made by the driver's
nested loops: outer loop over `dimensions`, inner loop over `sizes`; each
invocation is `(filename, n_rows, n_dims)` as passed to `generate_dataset`. -/
def driverInvocations : List (String × Int × Int) :=
  dimensions.flatMap (fun nDims =>
    sizes.map (fun size => (driverFilename nDims size, size, nDims)))

/- ### Rendering: what `csv.writer` puts in the file -/

/-- `csv.writer`'s line terminator (the `excel` dialect default); with
`newline=''` the file receives it untranslated on every platform. -/
def csvLineTerminator : List Char := ['\r', '\n']

/-- `','.join` at the character level. -/
def joinComma : List (List Char) → List Char
  | [] => []
  | [f] => f
  | f :: g :: rest => f ++ ',' :: joinComma (g :: rest)

/-- The characters of one row before its terminator: the fields joined
with commas. -/
def rowBody (fields : List String) : List Char :=
  joinComma (fields.map String.data)

/-- One `writer.writerow(fields)` call appends the joined fields followed by
the terminator. -/
def renderRow (fields : List String) (term : List Char) : List Char :=
  rowBody fields ++ term

/-- The character content a sequence of `writerow` calls leaves in the file,
with terminator `term` after every row. -/
def renderFileWith (term : List Char) (rows : List (List String)) :
    List Char :=
  (rows.map (fun r => renderRow r term)).flatten

/-- The character content `csv.writer` actually produces: every row
terminated by `"\r\n"`. -/
def renderFile (rows : List (List String)) : List Char :=
  renderFileWith csvLineTerminator rows

/-- Split a character sequence at every `"\r\n"`. -/
def splitCRLF : List Char → List (List Char)
  | [] => [[]]
  | [c] => [[c]]
  | c1 :: c2 :: rest =>
    if c1 = '\r' ∧ c2 = '\n' then [] :: splitCRLF rest
    else
      match splitCRLF (c2 :: rest) with
      | [] => [[c1]]
      | l :: ls => (c1 :: l) :: ls

/- ### File-handle event trace -/

/-- Events of one `generate_dataset` call, at the granularity of the claims:
opening the file for writing (truncation), each `writerow`, closing the
handle, and an exception leaving the call. -/
inductive FileEvent : Type
  | openW : FileEvent
  | writeRow : List String → FileEvent
  | close : FileEvent
  | raised : String → FileEvent
deriving DecidableEq, Repr

/-- The event trace of one `generate_dataset` call.  The `with open(...)`
statement opens on entry and closes on every exit path — also when the loop
body raises — before the exception propagates out of the call. -/
def generate_trace (nRows nDims : Int) (rng : RNG) : List FileEvent :=
  let p := rowsAndErr rng nDims (pythonRange nRows)
  FileEvent.openW :: FileEvent.writeRow (headersOf nDims) ::
    (p.1.map FileEvent.writeRow ++ [FileEvent.close] ++
      (p.2.map FileEvent.raised).toList)

/-! ### Basic lemmas about the embedding -/

theorem length_headersOf (nDims : Int) :
    (headersOf nDims).length = nDims.toNat := by
  simp [headersOf, pythonRange]

theorem length_dataRow (rng : RNG) (nDims : Int) (r : Nat) :
    (dataRow rng nDims r).length = nDims.toNat := by
  simp [dataRow]

theorem length_dataRowsOf (rng : RNG) (nRows nDims : Int) :
    (dataRowsOf rng nRows nDims).length = nRows.toNat := by
  simp [dataRowsOf, pythonRange]

/-- In a successful run (`0 ≤ n_dims`), the loop writes one stringified
`dataRow` per index and no exception escapes. -/
theorem rowsAndErr_of_nonneg (rng : RNG) {nDims : Int} (h : 0 ≤ nDims) :
    ∀ idxs : List Nat, rowsAndErr rng nDims idxs =
      (idxs.map (fun r => (dataRow rng nDims r).map natToStr), none) := by
  intro idxs
  induction idxs with
  | nil => rfl
  | cons r rest ih =>
    simp only [rowsAndErr, npRandint, if_neg (not_lt.mpr h)]
    simp [ih, dataRow]

/-- Closed form of `generate_dataset` for nonnegative `n_dims`. -/
theorem generate_dataset_of_nonneg (prior : List (List String))
    (nRows nDims : Int) (rng : RNG) (h : 0 ≤ nDims) :
    generate_dataset prior nRows nDims rng =
      (headersOf nDims :: dataRowsOf rng nRows nDims, none) := by
  simp [generate_dataset, rowsAndErr_of_nonneg rng h, dataRowsOf]

/-- A negative `n_dims` makes the very first loop iteration raise, before any
data row is written. -/
theorem rowsAndErr_of_neg (rng : RNG) {nDims : Int} (h : nDims < 0)
    (r : Nat) (rest : List Nat) :
    rowsAndErr rng nDims (r :: rest) =
      ([], some "negative dimensions are not allowed") := by
  simp [rowsAndErr, npRandint, if_pos h]

theorem headersOf_getD (nDims : Int) (i : Nat) (hi : i < nDims.toNat) :
    (headersOf nDims).getD i "" = "dimension_" ++ natToStr (i + 1) := by
  simp [headersOf, pythonRange, List.getD_eq_getElem?_getD, List.getElem?_map,
    List.getElem?_range, hi]

theorem dataRow_getD (rng : RNG) (nDims : Int) (r j : Nat)
    (hj : j < nDims.toNat) :
    (dataRow rng nDims r).getD j 0 = (rng (r * nDims.toNat + j)).val := by
  simp [dataRow, List.getD_eq_getElem?_getD, List.getElem?_map,
    List.getElem?_range, hj]

theorem dataRowsOf_getD (rng : RNG) (nRows nDims : Int) (r : Nat)
    (hr : r < nRows.toNat) :
    (dataRowsOf rng nRows nDims).getD r [] =
      (dataRow rng nDims r).map natToStr := by
  simp [dataRowsOf, pythonRange, List.getD_eq_getElem?_getD, List.getElem?_map,
    List.getElem?_range, hr]

/-! ### Characters of the rendered file -/

theorem decDigit_mem_digits : ∀ n : Nat,
    decDigit n ∈ ['0', '1', '2', '3', '4', '5', '6', '7', '8', '9']
  | 0 | 1 | 2 | 3 | 4 | 5 | 6 | 7 | 8 => by decide
  | n + 9 => by
    show '9' ∈ _
    decide

theorem mem_digits_ne_cr_lf {c : Char}
    (h : c ∈ ['0', '1', '2', '3', '4', '5', '6', '7', '8', '9']) :
    c ≠ '\r' ∧ c ≠ '\n' := by
  fin_cases h <;> exact ⟨by decide, by decide⟩

theorem decCharsAux_ne_cr_lf : ∀ fuel n : Nat, ∀ c ∈ decCharsAux fuel n,
    c ≠ '\r' ∧ c ≠ '\n'
  | 0, n => by simp [decCharsAux]
  | fuel + 1, n => by
    intro c hc
    rw [decCharsAux] at hc
    by_cases h : n < 10
    · rw [if_pos h] at hc
      simp only [List.mem_singleton] at hc
      subst hc
      exact mem_digits_ne_cr_lf (decDigit_mem_digits n)
    · rw [if_neg h] at hc
      rcases List.mem_append.mp hc with h1 | h1
      · exact decCharsAux_ne_cr_lf fuel (n / 10) c h1
      · simp only [List.mem_singleton] at h1
        subst h1
        exact mem_digits_ne_cr_lf (decDigit_mem_digits (n % 10))

theorem natToStr_ne_cr_lf (n : Nat) :
    ∀ c ∈ (natToStr n).data, c ≠ '\r' ∧ c ≠ '\n' := by
  intro c hc
  exact decCharsAux_ne_cr_lf (n + 1) n c hc

theorem headerField_ne_cr_lf (i : Nat) :
    ∀ c ∈ ("dimension_" ++ natToStr (i + 1)).data, c ≠ '\r' ∧ c ≠ '\n' := by
  intro c hc
  rw [String.data_append] at hc
  rcases List.mem_append.mp hc with h | h
  · revert h
    have : ∀ c ∈ "dimension_".data, c ≠ '\r' ∧ c ≠ '\n' := by decide
    exact this c
  · exact natToStr_ne_cr_lf (i + 1) c h

theorem joinComma_ne_cr_lf : ∀ fs : List (List Char),
    (∀ f ∈ fs, ∀ c ∈ f, c ≠ '\r' ∧ c ≠ '\n') →
    ∀ c ∈ joinComma fs, c ≠ '\r' ∧ c ≠ '\n'
  | [] => by simp [joinComma]
  | [f] => by
    intro h c hc
    simp only [joinComma] at hc
    exact h f (by simp) c hc
  | f :: g :: rest => by
    intro h c hc
    simp only [joinComma] at hc
    rcases List.mem_append.mp hc with h1 | h1
    · exact h f (by simp) c h1
    · rcases List.mem_cons.mp h1 with rfl | h2
      · exact ⟨by decide, by decide⟩
      · exact joinComma_ne_cr_lf (g :: rest)
          (fun x hx => h x (List.mem_cons_of_mem _ hx)) c h2

theorem splitCRLF_cons_ne (c : Char) (l : List Char) (hc : c ≠ '\r') :
    splitCRLF (c :: l) =
      match splitCRLF l with
      | [] => [[c]]
      | x :: xs => (c :: x) :: xs := by
  cases l with
  | nil => rfl
  | cons c2 rest =>
    show (if c = '\r' ∧ c2 = '\n' then [] :: splitCRLF rest
      else
        match splitCRLF (c2 :: rest) with
        | [] => [[c]]
        | x :: xs => (c :: x) :: xs) = _
    rw [if_neg (fun hand => hc hand.1)]

theorem splitCRLF_append_crlf : ∀ line rest : List Char, '\r' ∉ line →
    splitCRLF (line ++ '\r' :: '\n' :: rest) = line :: splitCRLF rest
  | [], rest => by
    intro h
    show (if '\r' = '\r' ∧ '\n' = '\n' then [] :: splitCRLF rest
      else _) = _
    rw [if_pos ⟨rfl, rfl⟩]
  | c :: line, rest => by
    intro h
    rw [List.cons_append,
      splitCRLF_cons_ne c _ (fun hc => h (by rw [← hc]; exact List.mem_cons_self c line)),
      splitCRLF_append_crlf line rest (fun hm => h (List.mem_cons_of_mem c hm))]

theorem renderFile_cons (row : List String) (rest : List (List String)) :
    renderFile (row :: rest) =
      rowBody row ++ '\r' :: '\n' :: renderFile rest := by
  simp [renderFile, renderFileWith, renderRow, csvLineTerminator]

/-- Splitting the rendered file at `"\r\n"` recovers one comma-joined body
per written row, plus one trailing empty segment: every row is
CRLF-terminated, provided no field contains a carriage return. -/
theorem splitCRLF_renderFile : ∀ rows : List (List String),
    (∀ row ∈ rows, ∀ f ∈ row, ∀ c ∈ f.data, c ≠ '\r' ∧ c ≠ '\n') →
    splitCRLF (renderFile rows) = rows.map rowBody ++ [[]]
  | [] => by
    intro h
    rfl
  | row :: rest => by
    intro h
    have hrow : '\r' ∉ rowBody row := by
      intro hmem
      refine absurd rfl
        ((joinComma_ne_cr_lf (row.map String.data) ?_ '\r' hmem).1)
      intro f hf c hcmem
      obtain ⟨s, hs, rfl⟩ := List.mem_map.mp hf
      exact h row (by simp) s hs c hcmem
    rw [renderFile_cons, splitCRLF_append_crlf (rowBody row) (renderFile rest) hrow,
      splitCRLF_renderFile rest (fun r hr => h r (List.mem_cons_of_mem _ hr))]
    simp

theorem rowsAndErr_fst_of_neg (rng : RNG) {nDims : Int} (h : nDims < 0) :
    ∀ idxs : List Nat, (rowsAndErr rng nDims idxs).1 = []
  | [] => rfl
  | r :: rest => by rw [rowsAndErr_of_neg rng h]

/-- Every field `generate_dataset` ever writes — header names, stringified
cell values, or nothing at all in the degenerate negative-`n_dims` case —
is free of carriage returns and line feeds. -/
theorem generate_dataset_fields_ne_cr_lf (prior : List (List String))
    (nRows nDims : Int) (rng : RNG) :
    ∀ row ∈ (generate_dataset prior nRows nDims rng).1, ∀ f ∈ row,
      ∀ c ∈ f.data, c ≠ '\r' ∧ c ≠ '\n' := by
  intro row hrow f hf c hc
  rcases lt_or_le nDims 0 with hneg | hpos
  · have hhdr : headersOf nDims = [] := by
      simp [headersOf, pythonRange, Int.toNat_of_nonpos hneg.le]
    have : (generate_dataset prior nRows nDims rng).1 = [[]] := by
      simp [generate_dataset, hhdr, rowsAndErr_fst_of_neg rng hneg]
    rw [this] at hrow
    simp only [List.mem_singleton] at hrow
    subst hrow
    simp at hf
  · rw [generate_dataset_of_nonneg prior nRows nDims rng hpos] at hrow
    rcases List.mem_cons.mp hrow with rfl | hmem
    · simp only [headersOf, List.mem_map] at hf
      obtain ⟨i, hi, rfl⟩ := hf
      exact headerField_ne_cr_lf i c hc
    · simp only [dataRowsOf, List.mem_map] at hmem
      obtain ⟨r, hr, rfl⟩ := hmem
      simp only [List.mem_map] at hf
      obtain ⟨v, hv, rfl⟩ := hf
      exact natToStr_ne_cr_lf v c hc

/-! ### Claim theorems -/

/-- C1: for every positive `row_count` and `dimension_count`,
`generate_dataset` produces a file of exactly one header row followed by
exactly `row_count` data rows, so the line count is `row_count + 1`, with no
trailing or missing rows (and no exception propagates). -/
theorem claim_C1 (prior : List (List String)) (nRows nDims : Int) (rng : RNG)
    (hR : 0 < nRows) (hD : 0 < nDims) :
    (generate_dataset prior nRows nDims rng).1 =
      headersOf nDims :: dataRowsOf rng nRows nDims ∧
    (dataRowsOf rng nRows nDims).length = nRows.toNat ∧
    (generate_dataset prior nRows nDims rng).1.length = nRows.toNat + 1 ∧
    (generate_dataset prior nRows nDims rng).2 = none := by
  have h := generate_dataset_of_nonneg prior nRows nDims rng hD.le
  refine ⟨by rw [h], length_dataRowsOf rng nRows nDims, ?_, by rw [h]⟩
  rw [h]
  simp [length_dataRowsOf]

theorem claim_C1_witness :
    (0 : Int) < 2 ∧ (0 : Int) < 3 ∧
    (generate_dataset [] 2 3 rngZero).1.length = (2 : Int).toNat + 1 :=
  ⟨by decide, by decide,
    (claim_C1 [] 2 3 rngZero (by decide) (by decide)).2.2.1⟩

/-- C2: for every positive `dimension_count`, the header row written by
`generate_dataset` is the ordered 1-based sequence
`dimension_1, ..., dimension_n`, with exactly `n` fields. -/
theorem claim_C2 (prior : List (List String)) (nRows nDims : Int) (rng : RNG)
    (hD : 0 < nDims) :
    (generate_dataset prior nRows nDims rng).1.head? = some (headersOf nDims) ∧
    (headersOf nDims).length = nDims.toNat ∧
    ∀ i, i < nDims.toNat →
      (headersOf nDims).getD i "" = "dimension_" ++ natToStr (i + 1) := by
  refine ⟨?_, length_headersOf nDims, fun i hi => headersOf_getD nDims i hi⟩
  simp [generate_dataset]

theorem claim_C2_witness :
    (0 : Int) < 2 ∧ (headersOf 2).getD 0 "" = "dimension_" ++ natToStr 1 ∧
    (headersOf 2).getD 1 "" = "dimension_" ++ natToStr 2 :=
  ⟨by decide, (claim_C2 [] 1 2 rngZero (by decide)).2.2 0 (by decide),
    (claim_C2 [] 1 2 rngZero (by decide)).2.2 1 (by decide)⟩

/-- C3: every cell written by `generate_dataset` is an integer in `[0, 100]`,
and each cell is a fresh, independent draw of the uniform sampler stream
(cell `(r, j)` consumes stream index `r * n_dims + j`, distinct for every
cell). -/
theorem claim_C3 (prior : List (List String)) (nRows nDims : Int) (rng : RNG)
    (hR : 0 < nRows) (hD : 0 < nDims) :
    (generate_dataset prior nRows nDims rng).1 =
      headersOf nDims ::
        (pythonRange nRows).map
          (fun r => (dataRow rng nDims r).map natToStr) ∧
    (∀ r j, j < nDims.toNat →
      (dataRow rng nDims r).getD j 0 = (rng (r * nDims.toNat + j)).val) ∧
    (∀ r, ∀ v ∈ dataRow rng nDims r, v ≤ 100) := by
  refine ⟨?_, fun r j hj => dataRow_getD rng nDims r j hj, fun r v hv => ?_⟩
  · rw [generate_dataset_of_nonneg prior nRows nDims rng hD.le]
    rfl
  · simp only [dataRow, List.mem_map] at hv
    obtain ⟨j, hj, rfl⟩ := hv
    exact Nat.lt_succ_iff.mp (rng (r * nDims.toNat + j)).isLt

theorem claim_C3_witness :
    (0 : Int) < 1 ∧ (0 : Int) < 2 ∧
    (dataRow rngZero 2 0).getD 1 0 = (rngZero (0 * (2 : Int).toNat + 1)).val :=
  ⟨by decide, by decide,
    (claim_C3 [] 1 2 rngZero (by decide) (by decide)).2.1 0 1 (by decide)⟩

/-- C4: every data row has exactly `dimension_count` fields — the same count
as the header — and field `j` of data row `r` holds the `j`-th value drawn
for that row while field `j` of the header is `dimension_(j+1)`, so header
order matches the order in which values are written. -/
theorem claim_C4 (prior : List (List String)) (nRows nDims : Int) (rng : RNG)
    (hR : 0 < nRows) (hD : 0 < nDims) :
    (∀ row ∈ (generate_dataset prior nRows nDims rng).1,
      row.length = nDims.toNat) ∧
    (headersOf nDims).length = nDims.toNat ∧
    ∀ r, r < nRows.toNat → ∀ j, j < nDims.toNat →
      (headersOf nDims).getD j "" = "dimension_" ++ natToStr (j + 1) ∧
      ((dataRowsOf rng nRows nDims).getD r []).getD j "" =
        natToStr ((rng (r * nDims.toNat + j)).val) := by
  refine ⟨fun row hrow => ?_, length_headersOf nDims, fun r hr j hj => ?_⟩
  · rw [generate_dataset_of_nonneg prior nRows nDims rng hD.le] at hrow
    rcases List.mem_cons.mp hrow with rfl | hmem
    · exact length_headersOf nDims
    · simp only [dataRowsOf, List.mem_map] at hmem
      obtain ⟨r, hr, rfl⟩ := hmem
      simp [length_dataRow]
  · refine ⟨headersOf_getD nDims j hj, ?_⟩
    rw [dataRowsOf_getD rng nRows nDims r hr]
    simp [dataRow, List.getD_eq_getElem?_getD, List.getElem?_map,
      List.getElem?_range, hj]

theorem claim_C4_witness :
    (0 : Int) < 2 ∧ (0 : Int) < 3 ∧
    ((dataRowsOf rngZero 2 3).getD 1 []).getD 2 "" =
      natToStr ((rngZero (1 * (3 : Int).toNat + 2)).val) :=
  ⟨by decide, by decide,
    ((claim_C4 [] 2 3 rngZero (by decide) (by decide)).2.2 1 (by decide) 2
      (by decide)).2⟩

/-- C5: the driver makes exactly 8 Dataset Writer invocations, the cross
product of `dimensions = [10, 20]` (outer loop) and
`sizes = [100, 1000, 10000, 100000]` (inner loop) in listed order, each with
filename `"dataset_" ++ n_dims ++ "D_" ++ size ++ ".csv"`. -/
theorem claim_C5 :
    driverInvocations =
      [("dataset_10D_100.csv", 100, 10), ("dataset_10D_1000.csv", 1000, 10),
       ("dataset_10D_10000.csv", 10000, 10),
       ("dataset_10D_100000.csv", 100000, 10),
       ("dataset_20D_100.csv", 100, 20), ("dataset_20D_1000.csv", 1000, 20),
       ("dataset_20D_10000.csv", 10000, 20),
       ("dataset_20D_100000.csv", 100000, 20)] ∧
    driverInvocations.length = 8 := by
  constructor
  · decide
  · decide

/-- C7: `generate_dataset` does no input validation: with `row_count = 0` and
positive `dimension_count` it succeeds silently (no exception) and leaves a
degenerate file holding only the header row. -/
theorem claim_C7 (prior : List (List String)) (nDims : Int) (rng : RNG)
    (hD : 0 < nDims) :
    generate_dataset prior 0 nDims rng = ([headersOf nDims], none) := by
  rw [generate_dataset_of_nonneg prior 0 nDims rng hD.le]
  simp [dataRowsOf, pythonRange]

theorem claim_C7_witness :
    (0 : Int) < 4 ∧
    generate_dataset [["5", "5"]] 0 4 rngZero = ([headersOf 4], none) :=
  ⟨by decide, claim_C7 [["5", "5"]] 4 rngZero (by decide)⟩

/-- C8: re-invoking `generate_dataset` on the same file truncates it: the
file after the second call is exactly one header row plus the second call's
`row_count` data rows, whatever the first call wrote (its `row_count` may be
larger) and whatever the file held before. -/
theorem claim_C8 (prior : List (List String)) (n1 n2 nDims : Int)
    (rng1 rng2 : RNG) (h2 : 0 < n2) (hD : 0 < nDims) :
    (generate_dataset (generate_dataset prior n1 nDims rng1).1
        n2 nDims rng2).1 =
      headersOf nDims :: dataRowsOf rng2 n2 nDims ∧
    (generate_dataset (generate_dataset prior n1 nDims rng1).1
        n2 nDims rng2).1.length = n2.toNat + 1 := by
  have h := generate_dataset_of_nonneg
    (generate_dataset prior n1 nDims rng1).1 n2 nDims rng2 hD.le
  refine ⟨by rw [h], ?_⟩
  rw [h]
  simp [length_dataRowsOf]

theorem claim_C8_witness :
    (0 : Int) < 1 ∧ (0 : Int) < 2 ∧
    (generate_dataset (generate_dataset [] 3 2 rngZero).1 1 2 rngZero).1.length
      = (1 : Int).toNat + 1 :=
  ⟨by decide, by decide,
    (claim_C8 [] 3 1 2 rngZero rngZero (by decide) (by decide)).2⟩

/-- C10: with `dimension_count < 0` and `row_count ≥ 1`, the call raises from
the sampling step (`ValueError: negative dimensions are not allowed`), but
only after truncating the file and writing one empty header line — the file
on disk ends up holding exactly one empty row (rendered as a bare line
terminator), whatever it held before. -/
theorem claim_C10 (prior : List (List String)) (nRows nDims : Int) (rng : RNG)
    (hR : 1 ≤ nRows) (hD : nDims < 0) :
    generate_dataset prior nRows nDims rng =
      ([[]], some "negative dimensions are not allowed") ∧
    headersOf nDims = [] ∧
    renderFile (generate_dataset prior nRows nDims rng).1 =
      csvLineTerminator := by
  have hne : nRows.toNat ≠ 0 := by
    have h1 : (1 : Nat) ≤ nRows.toNat := by
      rw [Int.le_toNat (le_trans (by decide) hR)]
      exact_mod_cast hR
    omega
  obtain ⟨k, hk⟩ := Nat.exists_eq_succ_of_ne_zero hne
  have hhdr : headersOf nDims = [] := by
    simp [headersOf, pythonRange, Int.toNat_of_nonpos hD.le]
  have hgen : generate_dataset prior nRows nDims rng =
      ([[]], some "negative dimensions are not allowed") := by
    simp only [generate_dataset, pythonRange, hk, List.range_succ_eq_map,
      rowsAndErr_of_neg rng hD, hhdr]
  refine ⟨hgen, hhdr, ?_⟩
  rw [hgen]
  rfl

theorem claim_C10_witness :
    (1 : Int) ≤ 2 ∧ (-3 : Int) < 0 ∧
    generate_dataset [["7", "7"]] 2 (-3) rngZero =
      ([[]], some "negative dimensions are not allowed") :=
  ⟨by decide, by decide,
    (claim_C10 [["7", "7"]] 2 (-3) rngZero (by decide) (by decide)).1⟩

/-- C6 counterexample: the file `generate_dataset` writes uses the CRLF
terminator `"\r\n"` after every row, not the POSIX host convention `"\n"`:
for a concrete run the content equals the CRLF rendering and differs from
the LF rendering.  (`newline=''` disables platform translation, so this
holds on every host.) -/
theorem claim_C6_counterexample :
    renderFile (generate_dataset [] 1 1 rngZero).1 =
      renderFileWith ['\r', '\n'] (generate_dataset [] 1 1 rngZero).1 ∧
    renderFile (generate_dataset [] 1 1 rngZero).1 ≠
      renderFileWith ['\n'] (generate_dataset [] 1 1 rngZero).1 :=
  ⟨rfl, by decide⟩

/-- C6 (amended): every row written by `generate_dataset` (header and data)
is terminated with `"\r\n"`, the csv writer's fixed line terminator on every
platform: splitting the file content at `"\r\n"` yields exactly the
comma-joined fields of each written row, in order, plus one trailing empty
segment. -/
theorem claim_C6 (prior : List (List String)) (nRows nDims : Int)
    (rng : RNG) :
    splitCRLF (renderFile (generate_dataset prior nRows nDims rng).1) =
      ((generate_dataset prior nRows nDims rng).1).map rowBody ++ [[]] ∧
    csvLineTerminator = ['\r', '\n'] :=
  ⟨splitCRLF_renderFile _
    (generate_dataset_fields_ne_cr_lf prior nRows nDims rng), rfl⟩

/-- C9: for every invocation, the trace opens the file once at the start,
performs all row writes, and closes the handle exactly once; everything
after the close is at most the propagating exception, so the handle is
released on every exit path, also when the loop body raises. -/
theorem claim_C9 (nRows nDims : Int) (rng : RNG) :
    ∃ (written : List (List String)) (tail : List FileEvent),
      generate_trace nRows nDims rng =
        FileEvent.openW :: (written.map FileEvent.writeRow ++
          [FileEvent.close] ++ tail) ∧
      (∀ e ∈ tail, ∃ msg, e = FileEvent.raised msg) ∧
      (generate_trace nRows nDims rng).count FileEvent.close = 1 := by
  refine ⟨headersOf nDims :: (rowsAndErr rng nDims (pythonRange nRows)).1,
    ((rowsAndErr rng nDims (pythonRange nRows)).2.map FileEvent.raised).toList,
    ?_, ?_, ?_⟩
  · simp [generate_trace]
  · cases h : (rowsAndErr rng nDims (pythonRange nRows)).2 <;> simp [h]
  · have hmap : ∀ l : List (List String),
        (l.map FileEvent.writeRow).count FileEvent.close = 0 := by
      intro l
      rw [List.count_eq_zero]
      simp
    cases h : (rowsAndErr rng nDims (pythonRange nRows)).2 with
    | none =>
      simp [generate_trace, h, List.count_append, List.count_cons, hmap]
    | some e =>
      simp [generate_trace, h, List.count_append, List.count_cons, hmap]

end SyntheticData
